import Mathlib

/-!
Verification of the `Serializable` component of the NA-libs repository
(`src/Serializable/index.js`), a JSON object-graph serializer with a class
registry, reference-id cycle tracking, and a tagged wire format.

The embedding follows the source file:

* JavaScript runtime values are modelled by `Value`.  Values whose identity
  the component observes — `Serializable` instances and plain objects, the
  only kinds the source stores in its `seen` WeakMap — live on an explicit
  heap (`HObj`, `Heap`) and are denoted by `Value.vptr` addresses.  Arrays,
  Maps, Sets, Dates, RegExps, Errors, typed arrays and scalars are carried
  structurally: the source never tests their identity, so the structural
  embedding is observationally faithful for every operation modelled here.
* The wire format is modelled by `Node`/`Envelope`, the parsed shape of the
  JSON the source produces.  `JSON.stringify`/`JSON.parse` — external
  collaborators of the component — are abstracted as a faithful codec, so
  the model works with the parsed trees directly; likewise
  `Date.prototype.toISOString` and `BigInt.prototype.toString` are injective
  codecs and the model keeps the underlying integer.
* Recursion in `_serializeValue` follows pointers through the heap and can
  diverge on cyclic graphs, exactly as in the source, so the recursive
  functions take a fuel parameter and answer `JsErr.outOfFuel` when it runs
  out; a run that diverges in JavaScript is one that fails for every fuel.
-/

namespace NAlib

/-- Heap addresses: indices into the heap list. -/
abbrev Addr := Nat

/-- JavaScript runtime values as observed by `Serializable`.  Scalars,
containers and the host object kinds with dedicated branches are structural;
`vptr` points into the heap at the identity-bearing kinds. -/
inductive Value where
  | vnull
  | vundef
  | vbool (b : Bool)
  | vnum (n : Int)
  | vstr (s : String)
  | vbigint (n : Int)
  | vfunc
  | varr (elems : List Value)
  | vmap (entries : List (Value × Value))
  | vset (elems : List Value)
  | vdate (t : Int)
  | vregexp (source flags : String)
  | verror (name msg stack : String)
  | vtyped (ctorName : String) (data : List Int)
  | vptr (a : Addr)

/-- Heap objects: the identity-bearing values.  `inst` models a constructed
`Serializable` subclass instance — `className` is `this.constructor.name`,
`initArgs` is the `_serializeInitArgs` own property, `props` the remaining
own enumerable properties in insertion order.  `plain` models an object with
`constructor === Object`; `other` an object of any other class. -/
inductive HObj where
  | inst (className : String) (initArgs : List Value) (props : List (String × Value))
  | plain (fields : List (String × Value))
  | other (ctorName : String)

/-- The heap: address `a` denotes `h[a]?`. -/
abbrev Heap := List HObj

mutual
/-- Wire nodes: the parsed form of the tagged union `_serializeValue`
produces, one constructor per `__type` tag.  `nraw` is the untagged
passthrough branch (`value === null || typeof value !== "object"`).
`narr`, `nmap` and `nset` carry no id because the source emits none for
them. -/
inductive Node where
  | nref (id : Nat)
  | nserz (id : Nat) (data : Envelope)
  | narr (data : List Node)
  | nmap (data : List (Node × Node))
  | nset (data : List Node)
  | ntyped (ctorName : String) (data : List Int)
  | ndate (iso : Int)
  | nregexp (source flags : String)
  | nerror (name msg stack : String)
  | nbigint (data : Int)
  | nundef
  | nobj (id : Nat) (data : List (String × Node))
  | nraw (v : Value)

/-- The envelope `serialize` stringifies: `className`, the per-arg encoded
`serializeInitArgs`, and the encoded own-property map. -/
inductive Envelope where
  | mk (className : String) (serializeInitArgs : List Node)
      (properties : List (String × Node))
end

/-- Accessor for the `properties` field of an envelope. -/
def Envelope.properties : Envelope → List (String × Node)
  | .mk _ _ ps => ps

/-- Accessor for the `className` field of an envelope. -/
def Envelope.className : Envelope → String
  | .mk c _ _ => c

/-- Accessor for the `serializeInitArgs` field of an envelope. -/
def Envelope.serializeInitArgs : Envelope → List Node
  | .mk _ a _ => a

/-- Failures of the component, one constructor per `throw` site of the
source, plus the two modelling artifacts `outOfFuel` (the run exceeds the
fuel bound, as an unbounded recursion does for every bound) and `heapFault`
(a dangling address, which no well-formed state produces). -/
inductive JsErr where
  | referenceErrorArgs
  | cannotConstructBase
  | registerNoName
  | invalidCtorArg (className : String)
  | unsupportedSerialize (kindName : String)
  | unknownClass (className : String)
  | outOfFuel
  | heapFault
deriving DecidableEq

/-- A registered constructor as the registry sees it: `Function.name` can be
a proper name, the empty string (anonymous class) or absent. -/
structure JsClass where
  name : Option String

/-- The class registry `Serializable._classRegistry`: a name-to-class map. -/
abbrev Registry := List (String × JsClass)

/-- Serializable.register (source lines 40–50): reject a falsy
`Class.name`, then record the class only when the name is not yet
present. -/
def register (reg : Registry) (C : JsClass) : Except JsErr Registry :=
  match C.name with
  | none => .error .registerNoName
  | some n =>
    if n = "" then .error .registerNoName
    else if (reg.lookup n).isSome then .ok reg
    else .ok ((n, C) :: reg)

/-- Supported-kind test of `_validateArgs` (source lines 57–101): the big
disjunction that lets an argument pass.  `typeof arg !== "object"` admits
every scalar and also functions; only a pointer to an object of an
unrecognised class fails. -/
def validArg (h : Heap) (arg : Value) : Bool :=
  match arg with
  | .vptr a =>
    match h[a]? with
    | some (.inst _ _ _) => true
    | some (.plain _) => true
    | some (.other _) => false
    | none => false
  | _ => true

/-- Serializable._validateArgs (source lines 57–101): scan the arguments and
throw at the first unsupported one.  The function-inside-plain-object case
only `console.warn`s, an effect with no modelled observable state. -/
def validateArgs (h : Heap) (className : String) : List Value → Except JsErr Unit
  | [] => .ok ()
  | arg :: rest =>
    if validArg h arg then validateArgs h className rest
    else .error (.invalidCtorArg className)

/-- Identifier bindings in scope inside the body of the `Serializable`
constructor (source lines 26–34): its only parameter is `allChildArgs`, and
the surrounding module binds no other value identifier. -/
def ctorBindings (allChildArgs : List Value) : List (String × List Value) :=
  [("allChildArgs", allChildArgs)]

/-- Serializable constructor (source lines 26–34).  After the `new.target`
guard, line 31 evaluates `this._validateArgs(args)`; the identifier `args`
has no binding in scope (the parameter is `allChildArgs`), so the lookup
fails and evaluation throws a ReferenceError before any argument is
validated, before `_serializeInitArgs` is captured, and before
`Serializable.register` runs.  The remaining lines model what the source
would do if the lookup succeeded.  On success the result would be the
captured init-args list together with the updated registry. -/
def serializableConstructor (reg : Registry) (h : Heap) (C : JsClass)
    (newTargetIsBase : Bool) (allChildArgs : List Value) :
    Except JsErr (List Value × Registry) :=
  if newTargetIsBase then .error .cannotConstructBase
  else
    match (ctorBindings allChildArgs).lookup "args" with
    | none => .error .referenceErrorArgs
    | some args =>
      match validateArgs h (C.name.getD "") args with
      | .error e => .error e
      | .ok _ =>
        match register reg C with
        | .error e => .error e
        | .ok reg' => .ok (allChildArgs, reg')

/-- Reference-tracker state of one `_serializeValue` call: the `seen`
WeakMap (address to assigned id) and the `refId` counter. -/
structure SerSt where
  seen : List (Addr × Nat)
  nextId : Nat

/-- Left-to-right traversal of a list threading a state through a fallible
step, the shape of every sequential loop in the component. -/
def threadMap {σ α β ε : Type _} (f : σ → α → Except ε (β × σ)) :
    σ → List α → Except ε (List β × σ)
  | st, [] => .ok ([], st)
  | st, x :: xs =>
    match f st x with
    | .error e => .error e
    | .ok (y, st') =>
      match threadMap f st' xs with
      | .error e => .error e
      | .ok (ys, st'') => .ok (y :: ys, st'')

/-- Body of the `serialize` method (source lines 107–120), parameterised by
the encoder used for one value so it can be shared between `recSer` and the
top-level entry point.  `Object.entries(this)` yields `_serializeInitArgs`
first (the class field initialiser runs before any subclass code), then the
remaining own properties; each entry, and afterwards each init-arg of the
envelope, goes through its own fresh `_serializeValue` state. -/
def serializeInstWith
    (recS : SerSt × Heap → Value → Except JsErr (Node × SerSt × Heap))
    (h : Heap) (className : String) (initArgs : List Value)
    (props : List (String × Value)) : Except JsErr (Envelope × Heap) :=
  match threadMap
      (fun hh (kv : String × Value) =>
        (recS (⟨[], 0⟩, hh) kv.2).map (fun r => ((kv.1, r.1), r.2.2)))
      h (("_serializeInitArgs", Value.varr initArgs) :: props) with
  | .error e => .error e
  | .ok (sProps, h1) =>
    match threadMap
        (fun hh v => (recS (⟨[], 0⟩, hh) v).map (fun r => (r.1, r.2.2)))
        h1 initArgs with
    | .error e => .error e
    | .ok (sArgs, h2) => .ok (.mk className sArgs sProps, h2)

/-- Serializable._serializeValue's inner `recursiveSerialize` (source lines
162–233), with the call's `seen`/`refId` state and the heap threaded
explicitly and a fuel bound standing in for the unbounded call stack.  Only
`Serializable` instances and plain objects consult and extend `seen`; a
nested instance is encoded by `value.serialize()`, which starts fresh
tracker states of its own.  The branches appear in the source's dispatch
order; the `Value` constructors are disjoint, so the order is faithful. -/
def recSer : Nat → SerSt × Heap → Value → Except JsErr (Node × SerSt × Heap)
  | 0, _, _ => .error .outOfFuel
  | fuel + 1, (st, h), v =>
    match v with
    | .vptr a =>
      match h[a]? with
      | some (.inst cn args props) =>
        match st.seen.lookup a with
        | some id => .ok (.nref id, st, h)
        | none =>
          let id := st.nextId
          let st' : SerSt := ⟨(a, id) :: st.seen, id + 1⟩
          (serializeInstWith (fun sh w => recSer fuel sh w) h cn args props).map
            (fun r => (.nserz id r.1, st', r.2))
      | some (.plain fields) =>
        match st.seen.lookup a with
        | some id => .ok (.nref id, st, h)
        | none =>
          let id := st.nextId
          let st' : SerSt := ⟨(a, id) :: st.seen, id + 1⟩
          (threadMap (fun (sh : SerSt × Heap) (kv : String × Value) =>
              (recSer fuel sh kv.2).map (fun r => ((kv.1, r.1), r.2)))
              (st', h) fields).map
            (fun r => (.nobj id r.1, r.2))
      | some (.other _) => .error (.unsupportedSerialize "object")
      | none => .error .heapFault
    | .varr es =>
      (threadMap (fun sh e => recSer fuel sh e) (st, h) es).map
        (fun r => (.narr r.1, r.2))
    | .vmap ps =>
      (threadMap (fun sh (kv : Value × Value) =>
          match recSer fuel sh kv.1 with
          | .error e => .error e
          | .ok (nk, sh1) =>
            match recSer fuel sh1 kv.2 with
            | .error e => .error e
            | .ok (nv, sh2) => .ok ((nk, nv), sh2)) (st, h) ps).map
        (fun r => (.nmap r.1, r.2))
    | .vset es =>
      (threadMap (fun sh e => recSer fuel sh e) (st, h) es).map
        (fun r => (.nset r.1, r.2))
    | .vtyped c d => .ok (.ntyped c d, st, h)
    | .vdate t => .ok (.ndate t, st, h)
    | .vregexp s f => .ok (.nregexp s f, st, h)
    | .verror n m s2 => .ok (.nerror n m s2, st, h)
    | .vbigint n => .ok (.nbigint n, st, h)
    | .vundef => .ok (.nundef, st, h)
    | .vnull => .ok (.nraw .vnull, st, h)
    | .vbool b => .ok (.nraw (.vbool b), st, h)
    | .vnum n => .ok (.nraw (.vnum n), st, h)
    | .vstr s => .ok (.nraw (.vstr s), st, h)
    | .vfunc => .ok (.nraw .vfunc, st, h)

/-- Serializable._serializeValue as called on one value: a fresh tracker
state, result node returned, state discarded. -/
def serializeValue (h : Heap) (fuel : Nat) (v : Value) : Except JsErr Node :=
  (recSer fuel (⟨[], 0⟩, h) v).map (fun r => r.1)

/-- The `serialize` method invoked on the instance at address `a`
(source lines 107–120), producing the envelope that is stringified. -/
def serializeMethod (h : Heap) (fuel : Nat) (a : Addr) : Except JsErr Envelope :=
  match h[a]? with
  | some (.inst cn args props) =>
    (serializeInstWith (fun sh v => recSer fuel sh v) h cn args props).map
      (fun r => r.1)
  | _ => .error .heapFault

/-- The `serialize` method together with the whole observable state it could
touch: the registry (which its body never names) and the heap threaded out
of the encoder. -/
def serializeMethodSt (reg : Registry) (h : Heap) (fuel : Nat) (a : Addr) :
    Except JsErr (Envelope × Registry × Heap) :=
  match h[a]? with
  | some (.inst cn args props) =>
    (serializeInstWith (fun sh v => recSer fuel sh v) h cn args props).map
      (fun r => (r.1, reg, r.2))
  | _ => .error .heapFault

/-- Reference-resolution state of one `_deserializeValue` call: the
`references` map from id to materialised value. -/
structure DeSt where
  refs : List (Nat × Value)

/-- Insert or overwrite a key in an association list, preserving positions,
as property assignment on a JavaScript object does. -/
def upsert : List (String × Value) → String → Value → List (String × Value)
  | [], k, v => [(k, v)]
  | (k', v') :: rest, k, v =>
    if k' = k then (k, v) :: rest else (k', v') :: upsert rest k v

/-- Assignment `o[k] = v` on a heap object.  Writing `_serializeInitArgs`
on an instance targets the field the model keeps separately. -/
def assignProp (o : HObj) (k : String) (v : Value) : HObj :=
  match o with
  | .inst cn args props =>
    if k = "_serializeInitArgs" then
      match v with
      | .varr vs => .inst cn vs props
      | _ => .inst cn args props
    else .inst cn args (upsert props k v)
  | .plain fields => .plain (upsert fields k v)
  | .other c => .other c

/-- Sequence of assignments onto the object at `a`. -/
def updateProps (h : Heap) (a : Addr) (fields : List (String × Value)) : Heap :=
  fields.foldl (fun hh kv =>
    match hh[a]? with
    | some o => hh.set a (assignProp o kv.1 kv.2)
    | none => hh) h

/-- Body of the static `deserialize` (source lines 127–154), parameterised
by the decoder for one node.  JSON parsing is abstracted as the faithful
codec, so the input is the already-parsed envelope.  The class is resolved
in the registry, each encoded init-arg is decoded by its own fresh
`_deserializeValue` state, and then `new Class(...)` runs — which throws in
the base constructor (see `serializableConstructor`), so the instance
allocation and property-assignment loop that follow are unreachable on
every run; they are modelled anyway, straight from the source. -/
def deserializeEnvelopeWith
    (des : DeSt × Heap → Node → Except JsErr (Value × DeSt × Heap))
    (reg : Registry) (h : Heap) : Envelope → Except JsErr (Value × Heap)
  | .mk cn args props =>
    match reg.lookup cn with
    | none => .error (.unknownClass cn)
    | some C =>
      match threadMap
          (fun hh n => (des (⟨[]⟩, hh) n).map (fun r => (r.1, r.2.2))) h args with
      | .error e => .error e
      | .ok (dArgs, h1) =>
        match serializableConstructor reg h1 C false dArgs with
        | .error e => .error e
        | .ok (captured, _reg') =>
          match threadMap
              (fun hh (kn : String × Node) =>
                (des (⟨[]⟩, hh) kn.2).map (fun r => ((kn.1, r.1), r.2.2)))
              (h1 ++ [HObj.inst cn captured []]) props with
          | .error e => .error e
          | .ok (fields, h3) => .ok (.vptr h1.length, updateProps h3 h1.length fields)

/-- Serializable._deserializeValue's inner `deserializeInternal` (source
lines 244–306), with the call's `references` map and the heap threaded
explicitly.  A `ref` node answers `references.get(value.id)`, which is
`undefined` when the id is absent; Array, Map and Set nodes then run
`references.set(value.id, result)` with `value.id === undefined` (the
serializer emits no id for them), a key no numeric ref id can name, so the
model omits those inserts.  A plain-record node registers its id before its
fields are decoded; the final single heap write is observationally equal to
the source's field-at-a-time mutation because no decoder branch reads the
heap. -/
def deser (reg : Registry) : Nat → DeSt × Heap → Node → Except JsErr (Value × DeSt × Heap)
  | 0, _, _ => .error .outOfFuel
  | fuel + 1, (st, h), n =>
    match n with
    | .nref id => .ok ((st.refs.lookup id).getD .vundef, st, h)
    | .nserz id data =>
      (deserializeEnvelopeWith (fun sh m => deser reg fuel sh m) reg h data).map
        (fun r => (r.1, ⟨(id, r.1) :: st.refs⟩, r.2))
    | .narr data =>
      (threadMap (fun sh m => deser reg fuel sh m) (st, h) data).map
        (fun r => (.varr r.1, r.2))
    | .nmap data =>
      (threadMap (fun sh (kv : Node × Node) =>
          match deser reg fuel sh kv.1 with
          | .error e => .error e
          | .ok (k, sh1) =>
            match deser reg fuel sh1 kv.2 with
            | .error e => .error e
            | .ok (v, sh2) => .ok ((k, v), sh2)) (st, h) data).map
        (fun r => (.vmap r.1, r.2))
    | .nset data =>
      (threadMap (fun sh m => deser reg fuel sh m) (st, h) data).map
        (fun r => (.vset r.1, r.2))
    | .ndate t => .ok (.vdate t, st, h)
    | .nregexp s f => .ok (.vregexp s f, st, h)
    | .nerror nm m s2 => .ok (.verror nm m s2, st, h)
    | .ntyped c d => .ok (.vtyped c d, st, h)
    | .nbigint x => .ok (.vbigint x, st, h)
    | .nundef => .ok (.vundef, st, h)
    | .nobj id data =>
      let addr := h.length
      let h1 := h ++ [HObj.plain []]
      let st1 : DeSt := ⟨(id, .vptr addr) :: st.refs⟩
      (threadMap (fun sh (kn : String × Node) =>
          (deser reg fuel sh kn.2).map (fun r => ((kn.1, r.1), r.2)))
          (st1, h1) data).map
        (fun r => (.vptr addr, r.2.1, (r.2.2).set addr (.plain r.1)))
    | .nraw v => .ok (v, st, h)

/-- The static `deserialize` on parsed text (source lines 127–154). -/
def deserializeEnvelope (reg : Registry) (fuel : Nat) (h : Heap) (env : Envelope) :
    Except JsErr (Value × Heap) :=
  deserializeEnvelopeWith (fun sh m => deser reg fuel sh m) reg h env

/-- Serializable._deserializeValue on one node: fresh `references` map,
resolution state discarded. -/
def deserializeValue (reg : Registry) (fuel : Nat) (h : Heap) (n : Node) :
    Except JsErr (Value × Heap) :=
  (deser reg fuel (⟨[]⟩, h) n).map (fun r => (r.1, r.2.2))

/-- Scalar test matching the source's passthrough branch restricted to the
spec's scalar kinds: null, boolean, number, string. -/
def isScalar : Value → Bool
  | .vnull => true
  | .vbool _ => true
  | .vnum _ => true
  | .vstr _ => true
  | _ => false

/-- Shapes of the scalar/collection-fidelity property: a sequence of mixed
scalars, a keyed map over scalars, a unique set of scalars, a timestamp, a
pattern, or the explicit undefined marker. -/
def fidelityShape : Value → Bool
  | .varr es => es.all isScalar
  | .vmap ps => ps.all (fun kv => isScalar kv.1 && isScalar kv.2)
  | .vset es => es.all isScalar
  | .vdate _ => true
  | .vregexp _ _ => true
  | .vundef => true
  | _ => false

/-- Example registered class used in the concrete runs. -/
def classP : JsClass := ⟨some "P"⟩

/-- Registry holding the example class. -/
def regP : Registry := [("P", classP)]

/-- Heap with one instance of `P`: captured init-args 1 and 2, one own
property `a`. -/
def heapP : Heap := [HObj.inst "P" [.vnum 1, .vnum 2] [("a", .vnum 3)]]

/-- Envelope that `serialize` produces for the instance in `heapP`. -/
def envP : Envelope :=
  .mk "P" [.nraw (.vnum 1), .nraw (.vnum 2)]
    [("_serializeInitArgs", .narr [.nraw (.vnum 1), .nraw (.vnum 2)]),
     ("a", .nraw (.vnum 3))]

/-- Heap with the cyclic instance pair: `a.prop = b` and `b.prop = a`. -/
def heapCyc : Heap :=
  [HObj.inst "A" [] [("prop", .vptr 1)], HObj.inst "B" [] [("prop", .vptr 0)]]

/-- Heap where instance `A` (address 1) holds the identical nested instance
`N` (address 0) in both of its properties `x` and `y`. -/
def heapShare : Heap :=
  [HObj.inst "N" [] [("v", .vnum 7)],
   HObj.inst "A" [] [("x", .vptr 0), ("y", .vptr 0)]]

/-- Envelope `serialize` produces for the nested instance `N`. -/
def envN : Envelope :=
  .mk "N" [] [("_serializeInitArgs", .narr []), ("v", .nraw (.vnum 7))]

/-- Envelope `serialize` produces for the sharing instance `A` of
`heapShare`. -/
def envShare : Envelope :=
  .mk "A" []
    [("_serializeInitArgs", .narr []),
     ("x", .nserz 0 envN), ("y", .nserz 0 envN)]

/-- Heap with one plain record, for the within-one-property sharing runs. -/
def heapO : Heap := [HObj.plain [("v", .vnum 1)]]

/-- Claim C1 (code bug in the source): serialization of a registered
instance with supported init-args and properties succeeds, but deserializing
the produced envelope does not return an equal instance — it throws the
constructor's ReferenceError (`args` is unbound at source line 31), because
`deserialize` invokes `new Class(...deserializedArgs)`. -/
theorem deserialize_of_serialize_throws_reference_error :
    serializeMethod heapP 4 0 = .ok envP ∧
    deserializeEnvelope regP 4 heapP envP = .error .referenceErrorArgs :=
  ⟨rfl, rfl⟩

/-- Claim C2: for every registry, heap, class and argument list, evaluating
the subclass constructor (`new.target` not the base class) throws the
ReferenceError of line 31 — before arguments are validated, before the
init-args are captured, and before the type is registered — so no
construction of a `Serializable` subclass ever completes normally. -/
theorem subclass_construction_always_throws_unbound_args (reg : Registry)
    (h : Heap) (C : JsClass) (args : List Value) :
    serializableConstructor reg h C false args = .error .referenceErrorArgs := rfl

/-- Witness: the C2 theorem applied to a concrete class and argument
list. -/
theorem subclass_construction_always_throws_unbound_args_witness :
    serializableConstructor [] [] ⟨some "Q"⟩ false [.vnum 0] =
      .error .referenceErrorArgs :=
  subclass_construction_always_throws_unbound_args [] [] ⟨some "Q"⟩ [.vnum 0]

/-- Claim C5 (code bug in the source): an argument list that the
component's own validator accepts still cannot construct an instance — line
31's unbound `args` throws before `_validateArgs`, the capture, and the
implicit `Serializable.register` call are reached, so construction never
succeeds and never registers the type. -/
theorem valid_args_construction_still_throws :
    validateArgs heapP "P" [.vnum 1, .vstr "a"] = .ok () ∧
    serializableConstructor [] heapP classP false [.vnum 1, .vstr "a"] =
      .error .referenceErrorArgs :=
  ⟨rfl, rfl⟩

/-- Claim C4, counterexample: with `a.x` and `a.y` holding the identical
nested instance `n`, serializing `a` emits a full object-graph node for `n`
at BOTH occurrences (each property goes through its own fresh
`_serializeValue` tracker), not one full node plus a `ref` node as the claim
states. -/
theorem shared_instance_across_properties_reencoded :
    serializeMethod heapShare 5 1 = .ok envShare ∧
    envShare.properties.lookup "x" = some (.nserz 0 envN) ∧
    envShare.properties.lookup "y" = some (.nserz 0 envN) :=
  ⟨rfl, rfl, rfl⟩

/-- Claim C4 as amended: reference collapsing is scoped to one
`_serializeValue` call, i.e. to a single property or init-arg.  Within one
property value, a shared plain record is emitted once and then as `ref 0`,
and decoding restores both positions to the identical address; a shared
nested instance inside one property likewise collapses to a full node plus
a `ref`; but the same instance shared across two distinct properties is
re-encoded in full each time (previous theorem). -/
theorem sharing_collapsed_within_single_property :
    serializeValue heapO 5 (.varr [.vptr 0, .vptr 0]) =
      .ok (.narr [.nobj 0 [("v", .nraw (.vnum 1))], .nref 0]) ∧
    deserializeValue [] 5 [] (.narr [.nobj 0 [("v", .nraw (.vnum 1))], .nref 0]) =
      .ok (.varr [.vptr 0, .vptr 0], [HObj.plain [("v", .vnum 1)]]) ∧
    serializeValue heapShare 5 (.varr [.vptr 0, .vptr 0]) =
      .ok (.narr [.nserz 0 envN, .nref 0]) :=
  ⟨rfl, rfl, rfl⟩

/-- Claim C6, counterexample: decoding the hand-crafted node with tag `ref`
and id 99, with no prior id-99 definition, does not fail — it produces the
value `undefined` (the `references` Map answers `undefined` for a missing
key and the source never checks). -/
theorem dangling_ref_yields_undefined_not_error :
    deserializeValue regP 5 heapP (.nref 99) = .ok (.vundef, heapP) := rfl

/-- Claim C6 as amended: a `ref` node whose id has no earlier definition in
document order decodes silently to `undefined` at that position; no
dangling-reference error exists in the component. -/
theorem unseen_ref_id_decodes_to_undefined (id : Nat) (reg : Registry)
    (fuel : Nat) (h : Heap) :
    deserializeValue reg (fuel + 1) h (.nref id) = .ok (.vundef, h) := rfl

/-- Witness: the amended C6 theorem applied to a fresh id on an empty
registry and heap. -/
theorem unseen_ref_id_decodes_to_undefined_witness :
    deserializeValue [] 1 [] (.nref 7) = .ok (.vundef, []) :=
  unseen_ref_id_decodes_to_undefined 7 [] 0 []

/-- Claim C7, counterexample: a function value does not make `serialize`
fail — `typeof value !== "object"` is true for functions, so the
passthrough branch returns it unencoded. -/
theorem function_value_passes_through_serializer :
    serializeValue [] 1 .vfunc = .ok (.nraw .vfunc) := rfl

/-- Claim C7 as amended: values whose `typeof` is not `"object"` — functions
included — pass through the serializer unencoded; an object of an
unrecognised class (not `Serializable`, not a plain record, none of the
special-cased host kinds) fails with the unsupported-type error carrying
`typeof value`, which is `"object"`. -/
theorem unknown_object_fails_nonobject_passes (h : Heap) (a : Addr)
    (c : String) (fuel : Nat) (ha : h[a]? = some (.other c)) :
    serializeValue h (fuel + 1) (.vptr a) = .error (.unsupportedSerialize "object") ∧
    serializeValue h (fuel + 1) .vfunc = .ok (.nraw .vfunc) := by
  constructor
  · simp [serializeValue, recSer, ha, Except.map]
  · rfl

/-- Witness: the amended C7 theorem applied to a one-object heap holding an
instance of an unrecognised class `Foo`. -/
theorem unknown_object_fails_nonobject_passes_witness :
    (([HObj.other "Foo"] : Heap)[0]? = some (HObj.other "Foo")) ∧
    (serializeValue [HObj.other "Foo"] 1 (.vptr 0) =
        .error (.unsupportedSerialize "object") ∧
      serializeValue [HObj.other "Foo"] 1 .vfunc = .ok (.nraw .vfunc)) :=
  ⟨rfl, unknown_object_fails_nonobject_passes [HObj.other "Foo"] 0 "Foo" 0 rfl⟩

/-- Serializer body of an instance with no init-args and one property whose
serialization already exhausts the fuel: the whole body exhausts it too. -/
theorem serializeInstWith_prop_error
    (recS : SerSt × Heap → Value → Except JsErr (Node × SerSt × Heap))
    (h : Heap) (cn : String) (k : String) (w : Value)
    (hinit : recS (⟨[], 0⟩, h) (.varr []) = .ok (.narr [], ⟨[], 0⟩, h))
    (hw : recS (⟨[], 0⟩, h) w = .error .outOfFuel) :
    serializeInstWith recS h cn [] [(k, w)] = .error .outOfFuel := by
  simp [serializeInstWith, threadMap, hinit, hw, Except.map]

/-- One-step unfolding of the encoder on the `a` side of the cyclic pair:
assign id 0, then serialize the `A` instance body at one unit less fuel. -/
theorem recSer_cycA_step (n : Nat) :
    recSer (n + 1) (⟨[], 0⟩, heapCyc) (.vptr 0) =
      (serializeInstWith (fun sh w => recSer n sh w) heapCyc "A" [] [("prop", .vptr 1)]).map
        (fun r => (Node.nserz 0 r.1, (⟨[(0, 0)], 1⟩ : SerSt), r.2)) := rfl

/-- One-step unfolding of the encoder on the `b` side of the cyclic pair. -/
theorem recSer_cycB_step (n : Nat) :
    recSer (n + 1) (⟨[], 0⟩, heapCyc) (.vptr 1) =
      (serializeInstWith (fun sh w => recSer n sh w) heapCyc "B" [] [("prop", .vptr 0)]).map
        (fun r => (Node.nserz 0 r.1, (⟨[(1, 0)], 1⟩ : SerSt), r.2)) := rfl

/-- On the cyclic pair, the encoder exhausts every fuel from either side:
each nested instance is serialized through `value.serialize()`, which starts
fresh tracker state, so the `seen` map never catches the cycle. -/
theorem recSer_cyclic_exhausts (f : Nat) :
    recSer f (⟨[], 0⟩, heapCyc) (.vptr 0) = .error .outOfFuel ∧
    recSer f (⟨[], 0⟩, heapCyc) (.vptr 1) = .error .outOfFuel := by
  induction f with
  | zero => exact ⟨rfl, rfl⟩
  | succ g ih =>
    cases g with
    | zero => exact ⟨rfl, rfl⟩
    | succ g' =>
      refine ⟨?_, ?_⟩
      · rw [recSer_cycA_step (g' + 1),
          serializeInstWith_prop_error _ heapCyc "A" "prop" (.vptr 1) rfl ih.2]
        rfl
      · rw [recSer_cycB_step (g' + 1),
          serializeInstWith_prop_error _ heapCyc "B" "prop" (.vptr 0) rfl ih.1]
        rfl

/-- Claim C3 (code bug in the source): on the cyclic pair `a.prop = b`,
`b.prop = a`, `a.serialize()` never terminates — for every fuel bound the
run exhausts it, because the per-call reference tracker is recreated at
every nested `value.serialize()` boundary and therefore never sees the
cycle.  (Construction of such a pair also already throws, line 31.) -/
theorem cyclic_pair_serialize_never_terminates (fuel : Nat) :
    serializeMethod heapCyc fuel 0 = .error .outOfFuel := by
  cases fuel with
  | zero => rfl
  | succ g =>
    have hs : serializeMethod heapCyc (g + 1) 0 =
        (serializeInstWith (fun sh v => recSer (g + 1) sh v) heapCyc "A" []
            [("prop", .vptr 1)]).map (fun r => r.1) := rfl
    rw [hs, serializeInstWith_prop_error _ heapCyc "A" "prop" (.vptr 1) rfl
      (recSer_cyclic_exhausts (g + 1)).2]
    rfl

/-- Claim C8: `register` records a class under its name only when the name
is absent (first registration wins, later same-name registrations are
no-ops that leave the registry untouched), never removes or overwrites an
entry, and fails when the class name is absent or empty. -/
theorem register_first_wins_append_only (reg : Registry) (C : JsClass) :
    (C.name = none → register reg C = .error .registerNoName) ∧
    (C.name = some "" → register reg C = .error .registerNoName) ∧
    (∀ n, C.name = some n → n ≠ "" → reg.lookup n = none →
      register reg C = .ok ((n, C) :: reg)) ∧
    (∀ n, C.name = some n → n ≠ "" → (reg.lookup n).isSome = true →
      register reg C = .ok reg) ∧
    (∀ reg', register reg C = .ok reg' →
      ∀ m D, reg.lookup m = some D → reg'.lookup m = some D) := by
  refine ⟨?_, ?_, ?_, ?_, ?_⟩
  · intro hn; simp [register, hn]
  · intro hn; simp [register, hn]
  · intro n hn hne hl; simp [register, hn, hne, hl]
  · intro n hn hne hs; simp [register, hn, hne, hs]
  · intro reg' hreg m D hm
    rcases hC : C.name with _ | n
    · simp [register, hC] at hreg
    · by_cases hne : n = ""
      · simp [register, hC, hne] at hreg
      · by_cases hs : (reg.lookup n).isSome
        · simp [register, hC, hne, hs] at hreg
          rw [← hreg]; exact hm
        · simp [register, hC, hne, hs] at hreg
          rw [← hreg]
          have hmn : (m == n) = false := by
            refine beq_eq_false_iff_ne.mpr ?_
            intro hEq
            subst hEq
            rw [hm] at hs
            simp at hs
          simp [List.lookup, hmn]
          exact hm

/-- Witness: the C8 theorem applied to concrete registries — a fresh name
is recorded, a nameless class is rejected, and re-registering a present
name is a no-op. -/
theorem register_first_wins_append_only_witness :
    register [] ⟨some "P"⟩ = .ok [("P", (⟨some "P"⟩ : JsClass))] ∧
    register [] ⟨none⟩ = .error .registerNoName ∧
    register [("P", classP)] ⟨some "P"⟩ = .ok [("P", classP)] :=
  ⟨(register_first_wins_append_only [] ⟨some "P"⟩).2.2.1 "P" rfl (by decide) rfl,
   (register_first_wins_append_only [] ⟨none⟩).1 rfl,
   (register_first_wins_append_only [("P", classP)] ⟨some "P"⟩).2.2.2.1 "P" rfl
     (by decide) rfl⟩

/-- Scalars take the passthrough branch and leave the tracker state and the
heap untouched. -/
theorem recSer_scalar_ok (fuel : Nat) (st : SerSt) (h : Heap) (e : Value)
    (he : isScalar e = true) :
    recSer (fuel + 1) (st, h) e = .ok (.nraw e, st, h) := by
  cases e <;> first | rfl | simp [isScalar] at he

/-- A list of scalars encodes element-wise to raw nodes. -/
theorem threadSer_scalars (fuel : Nat) (st : SerSt) (h : Heap) :
    ∀ es : List Value, es.all isScalar = true →
      threadMap (fun sh e => recSer (fuel + 1) sh e) (st, h) es =
        .ok (es.map .nraw, (st, h)) := by
  intro es
  induction es with
  | nil => intro _; rfl
  | cons e es ih =>
    intro hes
    simp only [List.all_cons, Bool.and_eq_true] at hes
    simp only [threadMap, List.map_cons, recSer_scalar_ok fuel st h e hes.1, ih hes.2]

/-- A list of scalar pairs encodes entry-wise to raw-node pairs. -/
theorem threadSer_scalar_pairs (fuel : Nat) (st : SerSt) (h : Heap) :
    ∀ ps : List (Value × Value),
      ps.all (fun kv => isScalar kv.1 && isScalar kv.2) = true →
      threadMap (fun sh (kv : Value × Value) =>
          match recSer (fuel + 1) sh kv.1 with
          | .error e => .error e
          | .ok (nk, sh1) =>
            match recSer (fuel + 1) sh1 kv.2 with
            | .error e => .error e
            | .ok (nv, sh2) => .ok ((nk, nv), sh2)) (st, h) ps =
        .ok (ps.map (fun kv => (Node.nraw kv.1, Node.nraw kv.2)), (st, h)) := by
  intro ps
  induction ps with
  | nil => intro _; rfl
  | cons kv ps ih =>
    intro hps
    simp only [List.all_cons, Bool.and_eq_true] at hps
    obtain ⟨⟨hk, hv2⟩, hrest⟩ := hps
    simp only [threadMap, List.map_cons, recSer_scalar_ok fuel st h kv.1 hk,
      recSer_scalar_ok fuel st h kv.2 hv2, ih hrest]

/-- Raw nodes decode to their carried value, touching nothing. -/
theorem deser_raw_ok (reg : Registry) (fuel : Nat) (st : DeSt) (h : Heap) (v : Value) :
    deser reg (fuel + 1) (st, h) (.nraw v) = .ok (v, st, h) := rfl

/-- A list of raw nodes decodes element-wise back to the carried values. -/
theorem threadDeser_raws (reg : Registry) (fuel : Nat) (st : DeSt) (h : Heap) :
    ∀ vs : List Value,
      threadMap (fun sh m => deser reg (fuel + 1) sh m) (st, h) (vs.map .nraw) =
        .ok (vs, (st, h)) := by
  intro vs
  induction vs with
  | nil => rfl
  | cons v vs ih =>
    simp only [List.map_cons, threadMap, deser_raw_ok, ih]

/-- A list of raw-node pairs decodes entry-wise back to the carried pairs. -/
theorem threadDeser_raw_pairs (reg : Registry) (fuel : Nat) (st : DeSt) (h : Heap) :
    ∀ ps : List (Value × Value),
      threadMap (fun sh (kv : Node × Node) =>
          match deser reg (fuel + 1) sh kv.1 with
          | .error e => .error e
          | .ok (k, sh1) =>
            match deser reg (fuel + 1) sh1 kv.2 with
            | .error e => .error e
            | .ok (v, sh2) => .ok ((k, v), sh2)) (st, h)
        (ps.map (fun kv => (Node.nraw kv.1, Node.nraw kv.2))) =
        .ok (ps, (st, h)) := by
  intro ps
  induction ps with
  | nil => rfl
  | cons kv ps ih =>
    simp only [List.map_cons, threadMap, deser_raw_ok, ih]

/-- Claim C9: a property value that is a sequence of mixed scalars, a
scalar-keyed map, a scalar set, a timestamp, a pattern, or the explicit
undefined marker round-trips through `_serializeValue` followed by
`_deserializeValue` to a value equal to the original (the encoder/decoder
pair preserves element order for sequences and map entries — which implies
membership equality for sets — the instant for dates, source and flags for
patterns, and undefined for the marker), leaving the heap unchanged. -/
theorem scalar_collection_roundtrip (v : Value) (hv : fidelityShape v = true)
    (reg : Registry) (h : Heap) (fuel : Nat) :
    (serializeValue h (fuel + 1 + 1) v).bind (deserializeValue reg (fuel + 1 + 1) h) =
      .ok (v, h) := by
  cases v with
  | varr es =>
    have hes : es.all isScalar = true := by simpa [fidelityShape] using hv
    have hser : serializeValue h (fuel + 1 + 1) (.varr es) = .ok (.narr (es.map .nraw)) := by
      have hstep : serializeValue h (fuel + 1 + 1) (.varr es) =
          ((threadMap (fun sh e => recSer (fuel + 1) sh e) (⟨[], 0⟩, h) es).map
            (fun r => (Node.narr r.1, r.2))).map (fun r => r.1) := rfl
      rw [hstep, threadSer_scalars fuel ⟨[], 0⟩ h es hes]
      rfl
    have hdes : deserializeValue reg (fuel + 1 + 1) h (.narr (es.map .nraw)) =
        .ok (.varr es, h) := by
      have hstep : deserializeValue reg (fuel + 1 + 1) h (.narr (es.map .nraw)) =
          ((threadMap (fun sh m => deser reg (fuel + 1) sh m) (⟨[]⟩, h)
              (es.map .nraw)).map
            (fun r => (Value.varr r.1, r.2))).map (fun r => (r.1, r.2.2)) := rfl
      rw [hstep, threadDeser_raws reg fuel ⟨[]⟩ h es]
      rfl
    rw [hser]
    simp only [Except.bind]
    exact hdes
  | vmap ps =>
    have hps : ps.all (fun kv => isScalar kv.1 && isScalar kv.2) = true := by
      simpa [fidelityShape] using hv
    have hser : serializeValue h (fuel + 1 + 1) (.vmap ps) =
        .ok (.nmap (ps.map (fun kv => (Node.nraw kv.1, Node.nraw kv.2)))) := by
      have hstep : serializeValue h (fuel + 1 + 1) (.vmap ps) =
          ((threadMap (fun sh (kv : Value × Value) =>
              match recSer (fuel + 1) sh kv.1 with
              | .error e => .error e
              | .ok (nk, sh1) =>
                match recSer (fuel + 1) sh1 kv.2 with
                | .error e => .error e
                | .ok (nv, sh2) => .ok ((nk, nv), sh2)) (⟨[], 0⟩, h) ps).map
            (fun r => (Node.nmap r.1, r.2))).map (fun r => r.1) := rfl
      rw [hstep, threadSer_scalar_pairs fuel ⟨[], 0⟩ h ps hps]
      rfl
    have hdes : deserializeValue reg (fuel + 1 + 1) h
        (.nmap (ps.map (fun kv => (Node.nraw kv.1, Node.nraw kv.2)))) =
        .ok (.vmap ps, h) := by
      have hstep : deserializeValue reg (fuel + 1 + 1) h
          (.nmap (ps.map (fun kv => (Node.nraw kv.1, Node.nraw kv.2)))) =
          ((threadMap (fun sh (kv : Node × Node) =>
              match deser reg (fuel + 1) sh kv.1 with
              | .error e => .error e
              | .ok (k, sh1) =>
                match deser reg (fuel + 1) sh1 kv.2 with
                | .error e => .error e
                | .ok (v, sh2) => .ok ((k, v), sh2)) (⟨[]⟩, h)
              (ps.map (fun kv => (Node.nraw kv.1, Node.nraw kv.2)))).map
            (fun r => (Value.vmap r.1, r.2))).map (fun r => (r.1, r.2.2)) := rfl
      rw [hstep, threadDeser_raw_pairs reg fuel ⟨[]⟩ h ps]
      rfl
    rw [hser]
    simp only [Except.bind]
    exact hdes
  | vset es =>
    have hes : es.all isScalar = true := by simpa [fidelityShape] using hv
    have hser : serializeValue h (fuel + 1 + 1) (.vset es) = .ok (.nset (es.map .nraw)) := by
      have hstep : serializeValue h (fuel + 1 + 1) (.vset es) =
          ((threadMap (fun sh e => recSer (fuel + 1) sh e) (⟨[], 0⟩, h) es).map
            (fun r => (Node.nset r.1, r.2))).map (fun r => r.1) := rfl
      rw [hstep, threadSer_scalars fuel ⟨[], 0⟩ h es hes]
      rfl
    have hdes : deserializeValue reg (fuel + 1 + 1) h (.nset (es.map .nraw)) =
        .ok (.vset es, h) := by
      have hstep : deserializeValue reg (fuel + 1 + 1) h (.nset (es.map .nraw)) =
          ((threadMap (fun sh m => deser reg (fuel + 1) sh m) (⟨[]⟩, h)
              (es.map .nraw)).map
            (fun r => (Value.vset r.1, r.2))).map (fun r => (r.1, r.2.2)) := rfl
      rw [hstep, threadDeser_raws reg fuel ⟨[]⟩ h es]
      rfl
    rw [hser]
    simp only [Except.bind]
    exact hdes
  | vdate t => rfl
  | vregexp s f => rfl
  | vundef => rfl
  | vnull => simp [fidelityShape] at hv
  | vbool b => simp [fidelityShape] at hv
  | vnum n => simp [fidelityShape] at hv
  | vstr s => simp [fidelityShape] at hv
  | vbigint n => simp [fidelityShape] at hv
  | vfunc => simp [fidelityShape] at hv
  | verror a b c => simp [fidelityShape] at hv
  | vtyped c d => simp [fidelityShape] at hv
  | vptr a => simp [fidelityShape] at hv

/-- Witness: the C9 round trip on a sequence of mixed scalars. -/
theorem scalar_collection_roundtrip_witness :
    fidelityShape (.varr [.vnull, .vbool true, .vnum 3, .vstr "a"]) = true ∧
    (serializeValue [] 2 (.varr [.vnull, .vbool true, .vnum 3, .vstr "a"])).bind
        (deserializeValue [] 2 []) =
      .ok (.varr [.vnull, .vbool true, .vnum 3, .vstr "a"], []) :=
  ⟨rfl, scalar_collection_roundtrip (.varr [.vnull, .vbool true, .vnum 3, .vstr "a"])
    rfl [] [] 0⟩

/-- A threaded traversal whose step preserves a projection of the state
preserves it over the whole list. -/
theorem threadMap_state {σ α β ε γ : Type _} (π : σ → γ)
    (f : σ → α → Except ε (β × σ))
    (hf : ∀ s x y s', f s x = .ok (y, s') → π s' = π s) :
    ∀ (xs : List α) (s : σ) (ys : List β) (s' : σ),
      threadMap f s xs = .ok (ys, s') → π s' = π s := by
  intro xs
  induction xs with
  | nil =>
    intro s ys s' hrun
    simp only [threadMap] at hrun
    cases hrun
    rfl
  | cons x xs ih =>
    intro s ys s' hrun
    simp only [threadMap] at hrun
    cases hfx : f s x with
    | error e => simp only [hfx] at hrun; cases hrun
    | ok p =>
      obtain ⟨y, s1⟩ := p
      simp only [hfx] at hrun
      cases htm : threadMap f s1 xs with
      | error e => simp only [htm] at hrun; cases hrun
      | ok q =>
        obtain ⟨ys1, s2⟩ := q
        simp only [htm] at hrun
        have hs2 : s2 = s' := congrArg Prod.snd (Except.ok.inj hrun)
        rw [← hs2]
        exact (ih s1 ys1 s2 htm).trans (hf s x y s1 hfx)

/-- The serialize body returns the heap it was given whenever the one-value
encoder it is built from does. -/
theorem serializeInstWith_heap
    (recS : SerSt × Heap → Value → Except JsErr (Node × SerSt × Heap))
    (hrec : ∀ sh v r, recS sh v = .ok r → r.2.2 = sh.2) :
    ∀ (h : Heap) (cn : String) (args : List Value) (props : List (String × Value))
      (env : Envelope) (h2 : Heap),
      serializeInstWith recS h cn args props = .ok (env, h2) → h2 = h := by
  intro h cn args props env h2 hrun
  simp only [serializeInstWith] at hrun
  cases htm1 : threadMap
      (fun hh (kv : String × Value) =>
        (recS (⟨[], 0⟩, hh) kv.2).map (fun r => ((kv.1, r.1), r.2.2)))
      h (("_serializeInitArgs", Value.varr args) :: props) with
  | error e => simp only [htm1] at hrun; cases hrun
  | ok p =>
    obtain ⟨sProps, h1⟩ := p
    simp only [htm1] at hrun
    cases htm2 : threadMap
        (fun hh v => (recS (⟨[], 0⟩, hh) v).map (fun r => (r.1, r.2.2))) h1 args with
    | error e => simp only [htm2] at hrun; cases hrun
    | ok q =>
      obtain ⟨sArgs, h2x⟩ := q
      simp only [htm2] at hrun
      have hh2 : h2x = h2 := congrArg Prod.snd (Except.ok.inj hrun)
      have step1 : ∀ (s : Heap) (x : String × Value) (y : String × Node) (s' : Heap),
          (recS (⟨[], 0⟩, s) x.2).map (fun r => ((x.1, r.1), r.2.2)) = .ok (y, s') →
          s' = s := by
        intro s x y s' hfx
        cases hr : recS (⟨[], 0⟩, s) x.2 with
        | error e => simp only [hr, Except.map] at hfx; cases hfx
        | ok r =>
          simp only [hr, Except.map] at hfx
          have : r.2.2 = s' := congrArg Prod.snd (Except.ok.inj hfx)
          rw [← this]
          exact hrec (⟨[], 0⟩, s) x.2 r hr
      have step2 : ∀ (s : Heap) (x : Value) (y : Node) (s' : Heap),
          (recS (⟨[], 0⟩, s) x).map (fun r => (r.1, r.2.2)) = .ok (y, s') → s' = s := by
        intro s x y s' hfx
        cases hr : recS (⟨[], 0⟩, s) x with
        | error e => simp only [hr, Except.map] at hfx; cases hfx
        | ok r =>
          simp only [hr, Except.map] at hfx
          have : r.2.2 = s' := congrArg Prod.snd (Except.ok.inj hfx)
          rw [← this]
          exact hrec (⟨[], 0⟩, s) x r hr
      rw [← hh2]
      exact (threadMap_state (fun hh => hh) _ step2 args h1 sArgs h2x htm2).trans
        (threadMap_state (fun hh => hh) _ step1
          (("_serializeInitArgs", Value.varr args) :: props) h sProps h1 htm1)

/-- The one-value encoder never changes the heap: `_serializeValue` contains
no assignment to any preexisting object, so a successful run hands back the
heap it started from. -/
theorem recSer_heap :
    ∀ (fuel : Nat) (sh : SerSt × Heap) (v : Value) (r : Node × SerSt × Heap),
      recSer fuel sh v = .ok r → r.2.2 = sh.2 := by
  intro fuel
  induction fuel with
  | zero =>
    intro sh v r hrun
    simp only [recSer] at hrun
    cases hrun
  | succ f ih =>
    intro sh v r hrun
    obtain ⟨st, h⟩ := sh
    cases v with
    | vptr a =>
      simp only [recSer] at hrun
      cases hga : h[a]? with
      | none => simp only [hga] at hrun; cases hrun
      | some o =>
        cases o with
        | inst cn args props =>
          simp only [hga] at hrun
          cases hseen : List.lookup a st.seen with
          | some id =>
            simp only [hseen] at hrun
            cases hrun
            rfl
          | none =>
            simp only [hseen] at hrun
            cases hsw : serializeInstWith (fun sh w => recSer f sh w) h cn args props with
            | error e => simp only [hsw, Except.map] at hrun; cases hrun
            | ok p =>
              obtain ⟨env, h2⟩ := p
              simp only [hsw, Except.map] at hrun
              have hr2 : h2 = r.2.2 :=
                congrArg (fun t => t.2.2) (Except.ok.inj hrun)
              rw [← hr2]
              exact serializeInstWith_heap _ ih h cn args props env h2 hsw
        | plain fields =>
          simp only [hga] at hrun
          cases hseen : List.lookup a st.seen with
          | some id =>
            simp only [hseen] at hrun
            cases hrun
            rfl
          | none =>
            simp only [hseen] at hrun
            cases htm : threadMap (fun (sh : SerSt × Heap) (kv : String × Value) =>
                Except.map (fun r => ((kv.1, r.1), r.2)) (recSer f sh kv.2))
                (⟨(a, st.nextId) :: st.seen, st.nextId + 1⟩, h) fields with
            | error e =>
              rw [htm] at hrun
              simp only [Except.map] at hrun
              cases hrun
            | ok p =>
              obtain ⟨fs, sh2⟩ := p
              rw [htm] at hrun
              simp only [Except.map] at hrun
              have hr2 : sh2.2 = r.2.2 :=
                congrArg (fun t => t.2.2) (Except.ok.inj hrun)
              rw [← hr2]
              refine threadMap_state (fun sh => sh.2) _ ?_ fields _ fs sh2 htm
              intro s x y s' hfx
              cases hr : recSer f s x.2 with
              | error e =>
                rw [hr] at hfx
                simp only [Except.map] at hfx
                cases hfx
              | ok rr =>
                rw [hr] at hfx
                simp only [Except.map] at hfx
                have hss : rr.2 = s' := congrArg Prod.snd (Except.ok.inj hfx)
                have := ih s x.2 rr hr
                rw [hss] at this
                exact this
        | other c => simp only [hga] at hrun; cases hrun
    | varr es =>
      simp only [recSer] at hrun
      cases htm : threadMap (fun sh e => recSer f sh e) (st, h) es with
      | error e => simp only [htm, Except.map] at hrun; cases hrun
      | ok p =>
        obtain ⟨ys, sh2⟩ := p
        simp only [htm, Except.map] at hrun
        have hr2 : sh2.2 = r.2.2 := congrArg (fun t => t.2.2) (Except.ok.inj hrun)
        rw [← hr2]
        exact threadMap_state (fun sh => sh.2) _ (fun s x y s' hfx => ih s x (y, s') hfx)
          es (st, h) ys sh2 htm
    | vset es =>
      simp only [recSer] at hrun
      cases htm : threadMap (fun sh e => recSer f sh e) (st, h) es with
      | error e => simp only [htm, Except.map] at hrun; cases hrun
      | ok p =>
        obtain ⟨ys, sh2⟩ := p
        simp only [htm, Except.map] at hrun
        have hr2 : sh2.2 = r.2.2 := congrArg (fun t => t.2.2) (Except.ok.inj hrun)
        rw [← hr2]
        exact threadMap_state (fun sh => sh.2) _ (fun s x y s' hfx => ih s x (y, s') hfx)
          es (st, h) ys sh2 htm
    | vmap ps =>
      simp only [recSer] at hrun
      cases htm : threadMap (fun sh (kv : Value × Value) =>
          match recSer f sh kv.1 with
          | .error e => .error e
          | .ok (nk, sh1) =>
            match recSer f sh1 kv.2 with
            | .error e => .error e
            | .ok (nv, sh2) => .ok ((nk, nv), sh2)) (st, h) ps with
      | error e => simp only [htm, Except.map] at hrun; cases hrun
      | ok p =>
        obtain ⟨ys, sh2⟩ := p
        simp only [htm, Except.map] at hrun
        have hr2 : sh2.2 = r.2.2 := congrArg (fun t => t.2.2) (Except.ok.inj hrun)
        rw [← hr2]
        refine threadMap_state (fun sh => sh.2) _ ?_ ps (st, h) ys sh2 htm
        intro s x y s' hfx
        cases hr1 : recSer f s x.1 with
        | error e => simp only [hr1] at hfx; cases hfx
        | ok r1 =>
          obtain ⟨nk, sh1⟩ := r1
          simp only [hr1] at hfx
          cases hr2 : recSer f sh1 x.2 with
          | error e => simp only [hr2] at hfx; cases hfx
          | ok r2 =>
            obtain ⟨nv, sh2x⟩ := r2
            simp only [hr2] at hfx
            have hss : sh2x = s' := congrArg Prod.snd (Except.ok.inj hfx)
            rw [← hss]
            exact (ih sh1 x.2 (nv, sh2x) hr2).trans (ih s x.1 (nk, sh1) hr1)
    | vtyped c d => simp only [recSer] at hrun; cases hrun; rfl
    | vdate t => simp only [recSer] at hrun; cases hrun; rfl
    | vregexp s f2 => simp only [recSer] at hrun; cases hrun; rfl
    | verror n m s2 => simp only [recSer] at hrun; cases hrun; rfl
    | vbigint n => simp only [recSer] at hrun; cases hrun; rfl
    | vundef => simp only [recSer] at hrun; cases hrun; rfl
    | vnull => simp only [recSer] at hrun; cases hrun; rfl
    | vbool b => simp only [recSer] at hrun; cases hrun; rfl
    | vnum n => simp only [recSer] at hrun; cases hrun; rfl
    | vstr s => simp only [recSer] at hrun; cases hrun; rfl
    | vfunc => simp only [recSer] at hrun; cases hrun; rfl

/-- Claim C10: `serialize` is read-only — whether it returns or throws, it
performs no write: on every successful run the registry and the heap (hence
every own property of the instance, its captured `_serializeInitArgs`, and
every object reachable from it) come back exactly as they went in, and the
error runs abort without any modelled write having occurred. -/
theorem serialize_preserves_state (reg : Registry) (h : Heap) (fuel : Nat) (a : Addr)
    (env : Envelope) (reg' : Registry) (h' : Heap)
    (hrun : serializeMethodSt reg h fuel a = .ok (env, reg', h')) :
    reg' = reg ∧ h' = h := by
  simp only [serializeMethodSt] at hrun
  cases hga : h[a]? with
  | none => simp only [hga] at hrun; cases hrun
  | some o =>
    cases o with
    | inst cn args props =>
      simp only [hga] at hrun
      cases hsw : serializeInstWith (fun sh v => recSer fuel sh v) h cn args props with
      | error e => simp only [hsw, Except.map] at hrun; cases hrun
      | ok p =>
        obtain ⟨e2, h2⟩ := p
        simp only [hsw, Except.map] at hrun
        have hpair := Except.ok.inj hrun
        have hreg : reg = reg' := congrArg (fun t => t.2.1) hpair
        have hh : h2 = h' := congrArg (fun t => t.2.2) hpair
        exact ⟨hreg.symm,
          hh.symm.trans (serializeInstWith_heap _ (recSer_heap fuel) h cn args props e2 h2 hsw)⟩
    | plain fields => simp only [hga] at hrun; cases hrun
    | other c => simp only [hga] at hrun; cases hrun

/-- Witness: the C10 frame property applied to the concrete run on `heapP`,
whose output registry and heap are the inputs themselves. -/
theorem serialize_preserves_state_witness :
    serializeMethodSt regP heapP 4 0 = .ok (envP, regP, heapP) ∧
    (regP = regP ∧ heapP = heapP) :=
  ⟨rfl, serialize_preserves_state regP heapP 4 0 envP regP heapP rfl⟩

end NAlib
